import Mathlib

/-!
# Verification of the LinkOfTrust contract (src/src/lib.rs)

Shallow embedding of the NEAR smart contract `CentralLinkOfTrustContract`.

Modelling conventions:
* `u128`/`NearToken` amounts and byte sizes are modelled as `Nat` (the
  contract's arithmetic stays far below `2 ^ 128` on the inputs considered;
  overflow checks in Rust panic rather than wrap, and no claim here depends
  on overflow behaviour).
* `f32` trust levels are modelled as `ℚ`.  The contract performs no floating
  point arithmetic on levels — only comparisons with `0.0` and `1.0` and
  exact storage/retrieval — so over the values involved the `f32` order and
  equality agree with the rational ones.
* `HashedUserId` is, in the source, a wrapper around its base-58 string
  `s_bs58`; equality, ordering and map-keying are all over that string, and
  `from_bs58` is the identity on it.  We therefore model a hashed user id as
  a `String`.  The caller argument of each entry point stands for
  `HashedUserId::from_account_id(env::predecessor_account_id())`; the identity
  hash is deterministic, so one caller is one string.
* `near_sdk::store::IterableMap` is modelled as an association list with the
  usual map semantics (`alGet`/`alInsert`/`alRemove`); reachable contract
  states keep their key lists duplicate-free.
* A NEAR panic (`require!`/`env::panic_str`) aborts the whole call and the
  host reverts every state write of the call.  Entry points therefore return
  `Except ContractError (St × Nat)` — the error cases are the panics, the
  `Nat` is the amount scheduled for transfer back to the caller (0 if none) —
  and `commit` gives the state the host persists: the new state on success,
  the untouched pre-state on a panic.
-/

/-- Error kinds of the contract; each corresponds to one panic site in the
source.  `insufficientFunds` carries the exact deficit printed by
`verify_deposit`'s message. -/
inductive ContractError where
  | invalidArgument : ContractError
  | insufficientFunds : Nat → ContractError
  | permissionDenied : ContractError
  | notFound : ContractError
deriving Repr, DecidableEq

instance {ε α : Type} [DecidableEq ε] [DecidableEq α] : DecidableEq (Except ε α)
  | Except.error a, Except.error b => decidable_of_iff (a = b) (by simp)
  | Except.error _, Except.ok _ => isFalse (by simp)
  | Except.ok _, Except.error _ => isFalse (by simp)
  | Except.ok a, Except.ok b => decidable_of_iff (a = b) (by simp)

/-- `UserData` (lib.rs:77-85): the per-user record.  `requested_trust_cost`
is a token amount, `trust_network` the `Vec<(String, f32)>`, `blocked_users`
the `Vec<String>`. -/
structure UserData where
  hashed_user_id : String
  requested_trust_cost : Nat
  public_profile : String
  trust_network : List (String × ℚ)
  blocked_users : List String
deriving Repr, DecidableEq

namespace UserData

/-- `UserData::new` (lib.rs:88-96). -/
def new (hashed_id : String) : UserData :=
  { hashed_user_id := hashed_id
    requested_trust_cost := 0
    public_profile := ""
    trust_network := []
    blocked_users := [] }

/-- `UserData::set_pair_f32` (lib.rs:103-111): overwrite the value at the
first entry with the given key, or push at the end when absent. -/
def set_pair_f32 : List (String × ℚ) → String → ℚ → List (String × ℚ)
  | [], key, value => [(key, value)]
  | (k, v) :: rest, key, value =>
      if k = key then (k, value) :: rest
      else (k, v) :: set_pair_f32 rest key value

/-- `UserData::set_key` (lib.rs:113-120): push the key unless already
present. -/
def set_key : List String → String → List String
  | [], key => [key]
  | k :: rest, key =>
      if k = key then k :: rest else k :: set_key rest key

/-- `UserData::remove_key` (lib.rs:122-126): remove the first occurrence of
the key, if any. -/
def remove_key : List String → String → List String
  | [], _ => []
  | k :: rest, key =>
      if k = key then rest else k :: remove_key rest key

/-- `UserData::remove_pair_f32` (lib.rs:128-132): remove the first entry with
the given key, if any. -/
def remove_pair_f32 : List (String × ℚ) → String → List (String × ℚ)
  | [], _ => []
  | (k, v) :: rest, key =>
      if k = key then rest else (k, v) :: remove_pair_f32 rest key

/-- `UserData::insert_trust_network` (lib.rs:137-139). -/
def insert_trust_network (d : UserData) (key : String) (val : ℚ) : UserData :=
  { d with trust_network := set_pair_f32 d.trust_network key val }

/-- `UserData::remove_trust_network` (lib.rs:141-143). -/
def remove_trust_network (d : UserData) (key : String) : UserData :=
  { d with trust_network := remove_pair_f32 d.trust_network key }

/-- `UserData::get_trust_network` (lib.rs:145-149): value at the first entry
with the given key. -/
def get_trust_network (d : UserData) (key : String) : Option ℚ :=
  (d.trust_network.find? (fun kv => kv.1 = key)).map (fun kv => kv.2)

/-- `UserData::block_user` (lib.rs:152-154). -/
def block_user (d : UserData) (key : String) : UserData :=
  { d with blocked_users := set_key d.blocked_users key }

/-- `UserData::unblock_user` (lib.rs:156-158). -/
def unblock_user (d : UserData) (key : String) : UserData :=
  { d with blocked_users := remove_key d.blocked_users key }

/-- `UserData::is_blocked` (lib.rs:160-162). -/
def is_blocked (d : UserData) (key : String) : Bool :=
  d.blocked_users.any (fun k => k = key)

end UserData

/-! ## The `IterableMap` abstraction: association lists with map semantics -/

/-- Lookup: value of the first entry with the given key. -/
def alGet {α : Type} : List (String × α) → String → Option α
  | [], _ => none
  | (k', v) :: rest, k => if k' = k then some v else alGet rest k

/-- Insert-or-overwrite: replace the first entry with the given key, or
append when absent (the observable `IterableMap::insert` semantics). -/
def alInsert {α : Type} : List (String × α) → String → α → List (String × α)
  | [], k, v => [(k, v)]
  | (k', v') :: rest, k, v =>
      if k' = k then (k, v) :: rest else (k', v') :: alInsert rest k v

/-- Removal of the first entry with the given key (`IterableMap::remove`). -/
def alRemove {α : Type} : List (String × α) → String → List (String × α)
  | [], _ => []
  | (k', v') :: rest, k =>
      if k' = k then rest else (k', v') :: alRemove rest k

/-- The contract state (lib.rs:167-176): the two top-level maps.
`timeout_duration` is never read by any operation under study and is
omitted. -/
structure St where
  users : List (String × UserData)
  user_deposits : List (String × Nat)
deriving Repr, DecidableEq

/-- The initial state built by `Default::default` (lib.rs:178-186): both maps
empty. -/
def St.init : St := { users := [], user_deposits := [] }

namespace CentralLinkOfTrustContract

/-- `measure_storage_usage` (lib.rs:201-217): id length, plus profile length,
plus per trust entry key length + 4, plus per blocked entry key length + 16,
plus 256 overhead. -/
def measure_storage_usage (hashed_id : String) (user_data : UserData) : Nat :=
  let t0 : Nat := hashed_id.length
  let t1 : Nat := t0 + user_data.public_profile.length
  let t2 : Nat := user_data.trust_network.foldl (fun acc kv => acc + kv.1.length + 4) t1
  let t3 : Nat := user_data.blocked_users.foldl (fun acc k => acc + k.length + 16) t2
  t3 + 256

/-- `with_user_data` (lib.rs:220-230): remove the record (or make a fresh
one), mutate it, re-insert it. -/
def with_user_data (hashed_id : String) (f : UserData → UserData) (st : St) : St :=
  let user_data := (alGet st.users hashed_id).getD (UserData.new hashed_id)
  { st with users := alInsert (alRemove st.users hashed_id) hashed_id (f user_data) }

/-- The reconciliation arithmetic inside `verify_deposit` (lib.rs:236-271),
parameterised on the measured size: returns `(newBalance, refund)` or the
insufficient-funds deficit.  `cpb` is the host's `storage_byte_cost`,
`attached` the funds attached to the call. -/
def reconcile (cpb size current attached : Nat) : Except ContractError (Nat × Nat) :=
  let required_deposit := size * cpb
  let updated_deposit := current + attached
  if updated_deposit < required_deposit then
    Except.error (ContractError.insufficientFunds (required_deposit - updated_deposit))
  else if updated_deposit > required_deposit then
    Except.ok (required_deposit, updated_deposit - required_deposit)
  else
    Except.ok (updated_deposit, 0)

/-- `verify_deposit` (lib.rs:233-272): measure the caller's stored record,
reconcile against held + attached funds, store the new balance and schedule
any refund.  Indexing `self.users[&hashed_id]` on an absent key is a host
panic; every caller invokes this right after inserting the record, so that
branch is unreachable from the entry points. -/
def verify_deposit (cpb attached : Nat) (hashed_id : String) (st : St) :
    Except ContractError (St × Nat) :=
  match alGet st.users hashed_id with
  | none => Except.error ContractError.notFound
  | some user_data =>
    let new_size := measure_storage_usage hashed_id user_data
    let current_deposit := (alGet st.user_deposits hashed_id).getD 0
    match reconcile cpb new_size current_deposit attached with
    | Except.error e => Except.error e
    | Except.ok (new_balance, refund) =>
        Except.ok ({ st with user_deposits := alInsert st.user_deposits hashed_id new_balance },
          refund)

/-- `get_total_users_deposit` (lib.rs:278-284): fold of all ledger balances. -/
def get_total_users_deposit (st : St) : Nat :=
  st.user_deposits.foldl (fun acc kv => acc + kv.2) 0

/-- The reserved overhead in `extract_profit` (lib.rs:295).  The Rust source
reads `2 * 10 ^ 24`; in Rust `^` is bitwise XOR and binds looser than `*`,
so this is `(2 * 10) XOR 24`. -/
def contract_size_overhead : Nat := (2 * 10) ^^^ 24

/-- The surplus computed by `extract_profit` (lib.rs:292-297): total account
balance minus the sum of user deposits minus the reserved overhead. -/
def profit_to_extract (account_balance total_deposit : Nat) : Nat :=
  account_balance - total_deposit - contract_size_overhead

/-- `modify_public_profile` (lib.rs:308-314). -/
def modify_public_profile (cpb : Nat) (caller : String) (attached : Nat)
    (profile : String) (st : St) : Except ContractError (St × Nat) :=
  let st1 := with_user_data caller (fun d => { d with public_profile := profile }) st
  verify_deposit cpb attached caller st1

/-- `trust` (lib.rs:352-372): validate the level, reject a blocked caller,
then set (or, at level 0, remove) the trust edge and reconcile. -/
def trust (cpb : Nat) (caller : String) (attached : Nat) (user_id : String)
    (level : ℚ) (st : St) : Except ContractError (St × Nat) :=
  if 0 ≤ level ∧ level ≤ 1 then
    if (match alGet st.users user_id with
        | some target_user => target_user.is_blocked caller
        | none => false) then
      Except.error ContractError.permissionDenied
    else
      let st1 := with_user_data caller (fun d =>
        if level = 0 then d.remove_trust_network user_id
        else d.insert_trust_network user_id level) st
      verify_deposit cpb attached caller st1
  else
    Except.error ContractError.invalidArgument

/-- `untrust` (lib.rs:375-382). -/
def untrust (cpb : Nat) (caller : String) (attached : Nat) (user_id : String)
    (st : St) : Except ContractError (St × Nat) :=
  let st1 := with_user_data caller (fun d => d.remove_trust_network user_id) st
  verify_deposit cpb attached caller st1

/-- `block_user` (lib.rs:386-401): add to the caller's block set, then — when
the other user has a record — drop their trust edge toward the caller as a
side update, then reconcile the caller's deposit only. -/
def block_user (cpb : Nat) (caller : String) (attached : Nat) (other_id : String)
    (st : St) : Except ContractError (St × Nat) :=
  let st1 := with_user_data caller (fun d => d.block_user other_id) st
  let st2 :=
    match alGet st1.users other_id with
    | some _ => with_user_data other_id (fun d => d.remove_trust_network caller) st1
    | none => st1
  verify_deposit cpb attached caller st2

/-- `unblock_user` (lib.rs:404-412). -/
def unblock_user (cpb : Nat) (caller : String) (attached : Nat) (other_id : String)
    (st : St) : Except ContractError (St × Nat) :=
  let st1 := with_user_data caller (fun d => d.unblock_user other_id) st
  verify_deposit cpb attached caller st1

/-- `delete_user` (lib.rs:418-436): NotFound without a record; otherwise
remove both entries and refund the whole held balance. -/
def delete_user (caller : String) (st : St) : Except ContractError (St × Nat) :=
  match alGet st.users caller with
  | none => Except.error ContractError.notFound
  | some _ =>
    let user_deposit := (alGet st.user_deposits caller).getD 0
    Except.ok ({ users := alRemove st.users caller,
                 user_deposits := alRemove st.user_deposits caller },
      user_deposit)

end CentralLinkOfTrustContract

/-- The state the NEAR host persists after a call: the call's result state on
success, the pre-call state when the call panicked (every write of the call
is reverted). -/
def commit (st : St) (r : Except ContractError (St × Nat)) : St :=
  match r with
  | Except.ok (st', _) => st'
  | Except.error _ => st

open CentralLinkOfTrustContract

/-! ## Association-list lemmas -/

/-- Keys of the map are duplicate-free; holds for both top-level maps in
every reachable state. -/
def alKeysND {α : Type} (l : List (String × α)) : Prop :=
  (l.map Prod.fst).Nodup

theorem alKeysND_nil {α : Type} : alKeysND ([] : List (String × α)) := by
  simp [alKeysND]

theorem alGet_alInsert_self {α : Type} (l : List (String × α)) (k : String) (v : α) :
    alGet (alInsert l k v) k = some v := by
  induction l with
  | nil => simp [alInsert, alGet]
  | cons p rest ih =>
    by_cases h : p.1 = k
    · simp [alInsert, alGet, h]
    · simp [alInsert, alGet, h, ih]

theorem alGet_alInsert_ne {α : Type} (l : List (String × α)) (k k' : String) (v : α)
    (h : k' ≠ k) : alGet (alInsert l k v) k' = alGet l k' := by
  induction l with
  | nil => simp [alInsert, alGet, Ne.symm h]
  | cons p rest ih =>
    by_cases hp : p.1 = k
    · simp [alInsert, alGet, hp, Ne.symm h]
    · simp only [alInsert, if_neg hp]
      by_cases hp' : p.1 = k'
      · simp [alGet, hp']
      · simp [alGet, hp', ih]

theorem alGet_alRemove_ne {α : Type} (l : List (String × α)) (k k' : String)
    (h : k' ≠ k) : alGet (alRemove l k) k' = alGet l k' := by
  induction l with
  | nil => simp [alRemove]
  | cons p rest ih =>
    by_cases hp : p.1 = k
    · simp [alRemove, alGet, hp, Ne.symm h]
    · simp only [alRemove, if_neg hp]
      by_cases hp' : p.1 = k'
      · simp [alGet, hp']
      · simp [alGet, hp', ih]

theorem alGet_eq_none_of_not_mem_keys {α : Type} (l : List (String × α)) (k : String)
    (h : k ∉ l.map Prod.fst) : alGet l k = none := by
  induction l with
  | nil => simp [alGet]
  | cons p rest ih =>
    simp only [List.map_cons, List.mem_cons] at h
    push_neg at h
    simp [alGet, Ne.symm h.1, ih h.2]

theorem alRemove_keys_sublist {α : Type} (l : List (String × α)) (k : String) :
    List.Sublist ((alRemove l k).map Prod.fst) (l.map Prod.fst) := by
  induction l with
  | nil => simp [alRemove]
  | cons p rest ih =>
    by_cases hp : p.1 = k
    · simp only [alRemove, if_pos hp, List.map_cons]
      exact (List.Sublist.refl _).cons _
    · simp only [alRemove, if_neg hp, List.map_cons]
      exact ih.cons₂ _

theorem alKeysND_alRemove {α : Type} (l : List (String × α)) (k : String)
    (h : alKeysND l) : alKeysND (alRemove l k) :=
  List.Nodup.sublist (alRemove_keys_sublist l k) h

theorem alGet_alRemove_self {α : Type} (l : List (String × α)) (k : String)
    (h : alKeysND l) : alGet (alRemove l k) k = none := by
  induction l with
  | nil => simp [alRemove, alGet]
  | cons p rest ih =>
    simp only [alKeysND, List.map_cons, List.nodup_cons] at h
    by_cases hp : p.1 = k
    · subst hp
      simp only [alRemove, if_pos rfl]
      exact alGet_eq_none_of_not_mem_keys rest p.1 h.1
    · simp [alRemove, alGet, hp, ih h.2]

theorem mem_keys_alInsert {α : Type} (l : List (String × α)) (k k'' : String) (v : α)
    (h : k'' ∈ (alInsert l k v).map Prod.fst) : k'' = k ∨ k'' ∈ l.map Prod.fst := by
  induction l with
  | nil => simpa [alInsert] using h
  | cons p rest ih =>
    by_cases hp : p.1 = k
    · simp only [alInsert, if_pos hp, List.map_cons, List.mem_cons] at h ⊢
      tauto
    · simp only [alInsert, if_neg hp, List.map_cons, List.mem_cons] at h ⊢
      rcases h with h | h
      · tauto
      · rcases ih h with h | h <;> tauto

theorem alKeysND_alInsert {α : Type} (l : List (String × α)) (k : String) (v : α)
    (h : alKeysND l) : alKeysND (alInsert l k v) := by
  induction l with
  | nil => simp [alInsert, alKeysND]
  | cons p rest ih =>
    simp only [alKeysND, List.map_cons, List.nodup_cons] at h
    by_cases hp : p.1 = k
    · subst hp
      simpa [alKeysND, alInsert, List.nodup_cons] using h
    · have hrest := ih h.2
      simp only [alKeysND, alInsert, if_neg hp, List.map_cons, List.nodup_cons]
      refine ⟨fun hmem => ?_, hrest⟩
      rcases mem_keys_alInsert rest k p.1 v hmem with hh | hh
      · exact hp hh
      · exact h.1 hh

/-! ## Sums and the storage measure -/

theorem sum_le_of_sublist {l1 l2 : List Nat} (h : List.Sublist l1 l2) : l1.sum ≤ l2.sum := by
  induction h with
  | slnil => simp
  | cons a _ ih => simp only [List.sum_cons]; omega
  | cons₂ a _ ih => simp only [List.sum_cons]; omega

theorem foldl_add_shift {α : Type} (f : α → Nat) (c : Nat) (l : List α) (a : Nat) :
    l.foldl (fun acc x => acc + f x + c) a = a + (l.map (fun x => f x + c)).sum := by
  induction l generalizing a with
  | nil => simp
  | cons x rest ih =>
    simp only [List.foldl_cons, List.map_cons, List.sum_cons, ih]
    omega

/-- Closed form of `measure_storage_usage`: the sums of per-entry costs plus
the fixed overheads, independent of entry order. -/
theorem measure_storage_usage_eq (hashed_id : String) (d : UserData) :
    measure_storage_usage hashed_id d
      = hashed_id.length + d.public_profile.length
        + (d.trust_network.map (fun kv => kv.1.length + 4)).sum
        + (d.blocked_users.map (fun k => k.length + 16)).sum
        + 256 := by
  simp only [measure_storage_usage, foldl_add_shift]

theorem remove_pair_f32_sublist (l : List (String × ℚ)) (key : String) :
    List.Sublist (UserData.remove_pair_f32 l key) l := by
  induction l with
  | nil => simp [UserData.remove_pair_f32]
  | cons p rest ih =>
    by_cases hp : p.1 = key
    · simp only [UserData.remove_pair_f32, if_pos hp]
      exact (List.Sublist.refl rest).cons p
    · simpa [UserData.remove_pair_f32, hp] using ih.cons₂ p

/-- Dropping a trust edge never grows the measured size. -/
theorem measure_remove_trust_le (hashed_id : String) (d : UserData) (key : String) :
    measure_storage_usage hashed_id (d.remove_trust_network key)
      ≤ measure_storage_usage hashed_id d := by
  rw [measure_storage_usage_eq, measure_storage_usage_eq]
  have hsub : List.Sublist (UserData.remove_pair_f32 d.trust_network key) d.trust_network :=
    remove_pair_f32_sublist d.trust_network key
  have := sum_le_of_sublist (hsub.map (fun kv => kv.1.length + 4))
  simp only [UserData.remove_trust_network]
  omega

/-! ## Reconciliation case analysis -/

theorem reconcile_lt {cpb size current attached : Nat}
    (h : current + attached < size * cpb) :
    reconcile cpb size current attached
      = Except.error (ContractError.insufficientFunds (size * cpb - (current + attached))) := by
  simp [reconcile, h]

theorem reconcile_gt {cpb size current attached : Nat}
    (h : size * cpb < current + attached) :
    reconcile cpb size current attached
      = Except.ok (size * cpb, current + attached - size * cpb) := by
  have h' : ¬ current + attached < size * cpb := by omega
  simp [reconcile, h, h']

theorem reconcile_eq_required {cpb size current attached : Nat}
    (h : current + attached = size * cpb) :
    reconcile cpb size current attached = Except.ok (current + attached, 0) := by
  simp [reconcile, h]

theorem reconcile_ok_le {cpb size current attached nb r : Nat}
    (h : reconcile cpb size current attached = Except.ok (nb, r)) :
    size * cpb ≤ nb := by
  unfold reconcile at h
  dsimp only at h
  split at h
  · cases h
  · split at h
    · cases h
      omega
    · cases h
      omega

/-! ## `verify_deposit` characterisation -/

theorem verify_deposit_ok_users {cpb attached : Nat} {c : String} {st st' : St} {r : Nat}
    (h : verify_deposit cpb attached c st = Except.ok (st', r)) :
    st'.users = st.users := by
  unfold verify_deposit at h
  split at h
  · cases h
  · dsimp only at h
    split at h
    · cases h
    · cases h
      rfl

theorem verify_deposit_ok_deposits {cpb attached : Nat} {c : String} {st st' : St} {r : Nat}
    (h : verify_deposit cpb attached c st = Except.ok (st', r)) :
    ∃ d nb, alGet st.users c = some d ∧
      st'.user_deposits = alInsert st.user_deposits c nb ∧
      measure_storage_usage c d * cpb ≤ nb := by
  unfold verify_deposit at h
  split at h
  · cases h
  · rename_i d hget
    dsimp only at h
    split at h
    · cases h
    · rename_i nb refund hrec
      cases h
      exact ⟨d, nb, hget, rfl, reconcile_ok_le hrec⟩

/-! ## The funding invariant (claim C1) -/

/-- Every stored record is fully funded: its user has a deposit-ledger entry
whose balance covers `measured_size * costPerByte`. -/
def Funded (cpb : Nat) (st : St) : Prop :=
  ∀ k d, alGet st.users k = some d →
    ∃ bal, alGet st.user_deposits k = some bal ∧
      measure_storage_usage k d * cpb ≤ bal

/-- Well-formedness carried through the reachability induction: both maps
have duplicate-free key lists and the state is fully funded. -/
def StInv (cpb : Nat) (st : St) : Prop :=
  alKeysND st.users ∧ alKeysND st.user_deposits ∧ Funded cpb st

theorem with_user_data_deposits (c : String) (f : UserData → UserData) (st : St) :
    (with_user_data c f st).user_deposits = st.user_deposits := rfl

theorem with_user_data_get_self (c : String) (f : UserData → UserData) (st : St) :
    alGet (with_user_data c f st).users c
      = some (f ((alGet st.users c).getD (UserData.new c))) :=
  alGet_alInsert_self _ _ _

theorem with_user_data_get_ne (c k : String) (f : UserData → UserData) (st : St)
    (h : k ≠ c) : alGet (with_user_data c f st).users k = alGet st.users k := by
  unfold with_user_data
  rw [alGet_alInsert_ne _ _ _ _ h, alGet_alRemove_ne _ _ _ h]

theorem alKeysND_with_user_data (c : String) (f : UserData → UserData) (st : St)
    (h : alKeysND st.users) : alKeysND (with_user_data c f st).users :=
  alKeysND_alInsert _ _ _ (alKeysND_alRemove _ _ h)

/-- Funding is preserved across a successful `verify_deposit` on the caller,
provided the edits since the funded pre-state `st0` only touched the caller's
record or shrank other records, and left the ledger alone. -/
theorem funded_of_verify_ok {cpb attached : Nat} {c : String} {st0 stE st' : St} {r : Nat}
    (hok : verify_deposit cpb attached c stE = Except.ok (st', r))
    (hF : Funded cpb st0)
    (husers : ∀ k, k ≠ c →
      alGet stE.users k = alGet st0.users k ∨
      (∃ d d', alGet st0.users k = some d ∧ alGet stE.users k = some d' ∧
        measure_storage_usage k d' ≤ measure_storage_usage k d))
    (hdep : stE.user_deposits = st0.user_deposits) :
    Funded cpb st' := by
  obtain ⟨d, nb, hget, hdepo, hle⟩ := verify_deposit_ok_deposits hok
  have huse : st'.users = stE.users := verify_deposit_ok_users hok
  intro k dk hk
  rw [huse] at hk
  by_cases hkc : k = c
  · subst hkc
    rw [hget] at hk
    cases hk
    refine ⟨nb, ?_, hle⟩
    rw [hdepo]
    exact alGet_alInsert_self _ _ _
  · have hdk : alGet st'.user_deposits k = alGet st0.user_deposits k := by
      rw [hdepo, alGet_alInsert_ne _ _ _ _ hkc, hdep]
    rcases husers k hkc with hsame | ⟨da, d', h0, hE, hshrink⟩
    · rw [hsame] at hk
      obtain ⟨bal, hbal, hble⟩ := hF k dk hk
      exact ⟨bal, by rw [hdk]; exact hbal, hble⟩
    · rw [hE] at hk
      cases hk
      obtain ⟨bal, hbal, hble⟩ := hF k da h0
      refine ⟨bal, by rw [hdk]; exact hbal, ?_⟩
      calc measure_storage_usage k dk * cpb
          ≤ measure_storage_usage k da * cpb := Nat.mul_le_mul_right _ hshrink
        _ ≤ bal := hble

theorem stInv_commit {cpb : Nat} {st : St} {r : Except ContractError (St × Nat)}
    (hI : StInv cpb st)
    (hok : ∀ st' ref, r = Except.ok (st', ref) → StInv cpb st') :
    StInv cpb (commit st r) := by
  cases r with
  | error e => exact hI
  | ok p => exact hok p.1 p.2 rfl

/-- The common single-record entry-point shape: edit the caller's record,
then reconcile the caller's deposit. -/
theorem stInv_of_single_edit {cpb attached : Nat} {c : String} {f : UserData → UserData}
    {st st' : St} {ref : Nat} (hI : StInv cpb st)
    (hok : verify_deposit cpb attached c (with_user_data c f st) = Except.ok (st', ref)) :
    StInv cpb st' := by
  obtain ⟨hNDu, hNDd, hF⟩ := hI
  have huse := verify_deposit_ok_users hok
  obtain ⟨d, nb, _, hdepo, _⟩ := verify_deposit_ok_deposits hok
  refine ⟨?_, ?_, ?_⟩
  · rw [huse]
    exact alKeysND_with_user_data _ _ _ hNDu
  · rw [hdepo]
    exact alKeysND_alInsert _ _ _ hNDd
  · exact funded_of_verify_ok hok hF
      (fun k hk => Or.inl (with_user_data_get_ne c k f st hk)) rfl

theorem stInv_modify_public_profile {cpb : Nat} {caller profile : String} {attached : Nat}
    {st st' : St} {ref : Nat} (hI : StInv cpb st)
    (hok : modify_public_profile cpb caller attached profile st = Except.ok (st', ref)) :
    StInv cpb st' :=
  stInv_of_single_edit hI hok

theorem stInv_trust {cpb : Nat} {caller user_id : String} {attached : Nat} {level : ℚ}
    {st st' : St} {ref : Nat} (hI : StInv cpb st)
    (hok : trust cpb caller attached user_id level st = Except.ok (st', ref)) :
    StInv cpb st' := by
  unfold trust at hok
  split at hok
  · split at hok
    · cases hok
    · exact stInv_of_single_edit hI hok
  · cases hok

theorem stInv_untrust {cpb : Nat} {caller user_id : String} {attached : Nat}
    {st st' : St} {ref : Nat} (hI : StInv cpb st)
    (hok : untrust cpb caller attached user_id st = Except.ok (st', ref)) :
    StInv cpb st' :=
  stInv_of_single_edit hI hok

theorem stInv_unblock {cpb : Nat} {caller other_id : String} {attached : Nat}
    {st st' : St} {ref : Nat} (hI : StInv cpb st)
    (hok : unblock_user cpb caller attached other_id st = Except.ok (st', ref)) :
    StInv cpb st' :=
  stInv_of_single_edit hI hok

/-- `block_user` preserves the invariant: the caller's record is reconciled,
and the best-effort side update only shrinks the other user's record, so the
other user's untouched deposit still covers it. -/
theorem stInv_block {cpb : Nat} {caller other_id : String} {attached : Nat}
    {st st' : St} {ref : Nat} (hI : StInv cpb st)
    (hok : block_user cpb caller attached other_id st = Except.ok (st', ref)) :
    StInv cpb st' := by
  obtain ⟨hNDu, hNDd, hF⟩ := hI
  unfold block_user at hok
  dsimp only at hok
  cases hget : alGet (with_user_data caller (fun d => d.block_user other_id) st).users other_id with
  | none =>
    rw [hget] at hok
    dsimp only at hok
    exact stInv_of_single_edit ⟨hNDu, hNDd, hF⟩ hok
  | some dB =>
    rw [hget] at hok
    dsimp only at hok
    have huse := verify_deposit_ok_users hok
    obtain ⟨d, nb, _, hdepo, _⟩ := verify_deposit_ok_deposits hok
    refine ⟨?_, ?_, ?_⟩
    · rw [huse]
      exact alKeysND_with_user_data _ _ _ (alKeysND_with_user_data _ _ _ hNDu)
    · rw [hdepo]
      exact alKeysND_alInsert _ _ _ hNDd
    · refine funded_of_verify_ok hok hF (fun k hk => ?_) rfl
      by_cases hko : k = other_id
      · subst hko
        right
        have hB : alGet st.users k = some dB := by
          rw [← with_user_data_get_ne caller k (fun d => d.block_user k) st hk]
          exact hget
        refine ⟨dB, dB.remove_trust_network caller, hB, ?_, measure_remove_trust_le _ _ _⟩
        rw [with_user_data_get_self]
        rw [hget]
        rfl
      · left
        rw [with_user_data_get_ne _ _ _ _ hko,
          with_user_data_get_ne _ _ _ _ hk]

theorem stInv_delete {cpb : Nat} {caller : String} {st st' : St} {ref : Nat}
    (hI : StInv cpb st)
    (hok : delete_user caller st = Except.ok (st', ref)) :
    StInv cpb st' := by
  obtain ⟨hNDu, hNDd, hF⟩ := hI
  unfold delete_user at hok
  split at hok
  · cases hok
  · dsimp only at hok
    cases hok
    refine ⟨alKeysND_alRemove _ _ hNDu, alKeysND_alRemove _ _ hNDd, ?_⟩
    intro k dk hk
    by_cases hkc : k = caller
    · subst hkc
      rw [alGet_alRemove_self _ _ hNDu] at hk
      cases hk
    · rw [alGet_alRemove_ne _ _ _ hkc] at hk
      obtain ⟨bal, hbal, hle⟩ := hF k dk hk
      exact ⟨bal, by rw [alGet_alRemove_ne _ _ _ hkc]; exact hbal, hle⟩

/-- States reachable from the freshly deployed contract through the public
mutating entry points, with arbitrary callers, arguments and attached funds;
each call is committed the way the NEAR host does (reverted on panic). -/
inductive Reachable (cpb : Nat) : St → Prop where
  | init : Reachable cpb St.init
  | modify_profile_call (caller : String) (attached : Nat) (profile : String) {st : St} :
      Reachable cpb st →
      Reachable cpb (commit st (modify_public_profile cpb caller attached profile st))
  | trust_call (caller : String) (attached : Nat) (user_id : String) (level : ℚ) {st : St} :
      Reachable cpb st →
      Reachable cpb (commit st (trust cpb caller attached user_id level st))
  | untrust_call (caller : String) (attached : Nat) (user_id : String) {st : St} :
      Reachable cpb st →
      Reachable cpb (commit st (untrust cpb caller attached user_id st))
  | block_call (caller : String) (attached : Nat) (other_id : String) {st : St} :
      Reachable cpb st →
      Reachable cpb (commit st (block_user cpb caller attached other_id st))
  | unblock_call (caller : String) (attached : Nat) (other_id : String) {st : St} :
      Reachable cpb st →
      Reachable cpb (commit st (unblock_user cpb caller attached other_id st))
  | delete_call (caller : String) {st : St} :
      Reachable cpb st →
      Reachable cpb (commit st (delete_user caller st))

theorem stInv_init {cpb : Nat} : StInv cpb St.init := by
  refine ⟨alKeysND_nil, alKeysND_nil, ?_⟩
  intro k d hk
  cases hk

theorem reachable_stInv {cpb : Nat} {st : St} (h : Reachable cpb st) : StInv cpb st := by
  induction h with
  | init => exact stInv_init
  | modify_profile_call caller attached profile hr ih =>
    exact stInv_commit ih (fun st' ref hok => stInv_modify_public_profile ih hok)
  | trust_call caller attached user_id level hr ih =>
    exact stInv_commit ih (fun st' ref hok => stInv_trust ih hok)
  | untrust_call caller attached user_id hr ih =>
    exact stInv_commit ih (fun st' ref hok => stInv_untrust ih hok)
  | block_call caller attached other_id hr ih =>
    exact stInv_commit ih (fun st' ref hok => stInv_block ih hok)
  | unblock_call caller attached other_id hr ih =>
    exact stInv_commit ih (fun st' ref hok => stInv_unblock ih hok)
  | delete_call caller hr ih =>
    exact stInv_commit ih (fun st' ref hok => stInv_delete ih hok)

/-! ## Further helper lemmas for the individual claims -/

theorem verify_deposit_insufficient {cpb attached : Nat} {c : String} {st : St} {d : UserData}
    (hget : alGet st.users c = some d)
    (hlt : (alGet st.user_deposits c).getD 0 + attached < measure_storage_usage c d * cpb) :
    verify_deposit cpb attached c st
      = Except.error (ContractError.insufficientFunds
          (measure_storage_usage c d * cpb - ((alGet st.user_deposits c).getD 0 + attached))) := by
  unfold verify_deposit
  rw [hget]
  dsimp only
  rw [reconcile_lt hlt]

theorem verify_deposit_sufficient {cpb attached : Nat} {c : String} {st : St} {d : UserData}
    (hget : alGet st.users c = some d)
    (hge : measure_storage_usage c d * cpb ≤ (alGet st.user_deposits c).getD 0 + attached) :
    ∃ st' r, verify_deposit cpb attached c st = Except.ok (st', r) ∧ st'.users = st.users := by
  unfold verify_deposit
  rw [hget]
  dsimp only
  rcases Nat.lt_or_ge (measure_storage_usage c d * cpb)
      ((alGet st.user_deposits c).getD 0 + attached) with hgt | hle
  · rw [reconcile_gt hgt]
    exact ⟨_, _, rfl, rfl⟩
  · have heq : (alGet st.user_deposits c).getD 0 + attached = measure_storage_usage c d * cpb :=
      Nat.le_antisymm hle hge
    rw [reconcile_eq_required heq]
    exact ⟨_, _, rfl, rfl⟩

theorem get_trust_network_insert_self (d : UserData) (p : String) (L : ℚ) :
    (d.insert_trust_network p L).get_trust_network p = some L := by
  show ((UserData.set_pair_f32 d.trust_network p L).find? (fun kv => kv.1 = p)).map
      (fun kv => kv.2) = some L
  induction d.trust_network with
  | nil => simp [UserData.set_pair_f32]
  | cons kv rest ih =>
    by_cases hp : kv.1 = p
    · simp [UserData.set_pair_f32, hp, List.find?]
    · simp only [UserData.set_pair_f32, if_neg hp, List.find?]
      have hd : (decide (kv.1 = p)) = false := by simpa using hp
      rw [hd]
      exact ih

theorem not_mem_keys_remove_pair (tn : List (String × ℚ)) (p : String)
    (h : (tn.map Prod.fst).Nodup) :
    p ∉ (UserData.remove_pair_f32 tn p).map Prod.fst := by
  induction tn with
  | nil => simp [UserData.remove_pair_f32]
  | cons kv rest ih =>
    obtain ⟨k, v⟩ := kv
    simp only [List.map_cons, List.nodup_cons] at h
    by_cases hp : k = p
    · simp only [UserData.remove_pair_f32, if_pos hp]
      rw [← hp]
      exact h.1
    · simp only [UserData.remove_pair_f32, if_neg hp, List.map_cons, List.mem_cons]
      push_neg
      exact ⟨fun hh => hp hh.symm, ih h.2⟩

theorem get_trust_network_remove_self (d : UserData) (p : String)
    (hnd : (d.trust_network.map Prod.fst).Nodup) :
    (d.remove_trust_network p).get_trust_network p = none := by
  show ((UserData.remove_pair_f32 d.trust_network p).find? (fun kv => kv.1 = p)).map
      (fun kv => kv.2) = none
  have hmem := not_mem_keys_remove_pair d.trust_network p hnd
  rw [List.find?_eq_none.mpr]
  · rfl
  · intro kv hkv
    simp only [decide_eq_true_eq]
    intro hk
    exact hmem (List.mem_map.mpr ⟨kv, hkv, hk⟩)

theorem set_pair_append (l : List (String × ℚ)) (p : String) (L : ℚ)
    (h : p ∉ l.map Prod.fst) : UserData.set_pair_f32 l p L = l ++ [(p, L)] := by
  induction l with
  | nil => simp [UserData.set_pair_f32]
  | cons kv rest ih =>
    obtain ⟨k, v⟩ := kv
    simp only [List.map_cons, List.mem_cons] at h
    push_neg at h
    have hk : k ≠ p := fun hh => h.1 hh.symm
    simp only [UserData.set_pair_f32, if_neg hk, List.cons_append, List.cons.injEq, true_and]
    exact ih h.2

theorem sum_remove_pair_mem (f : String × ℚ → Nat) (tn : List (String × ℚ)) (p : String) (L : ℚ)
    (hmem : (p, L) ∈ tn) (hnd : (tn.map Prod.fst).Nodup) :
    (tn.map f).sum = ((UserData.remove_pair_f32 tn p).map f).sum + f (p, L) := by
  induction tn with
  | nil => cases hmem
  | cons kv rest ih =>
    obtain ⟨k, v⟩ := kv
    simp only [List.map_cons, List.nodup_cons] at hnd
    rcases List.mem_cons.mp hmem with hh | hh
    · injection hh with h1 h2
      subst h1
      subst h2
      rw [show UserData.remove_pair_f32 ((p, L) :: rest) p = rest from by
        simp [UserData.remove_pair_f32]]
      simp only [List.map_cons, List.sum_cons]
      omega
    · have hkp : k ≠ p := by
        intro he
        exact hnd.1 (he ▸ List.mem_map.mpr ⟨(p, L), hh, rfl⟩)
      simp only [UserData.remove_pair_f32, if_neg hkp, List.map_cons, List.sum_cons,
        ih hh hnd.2]
      omega

theorem get_trust_network_mem {d : UserData} {p : String} {L : ℚ}
    (h : d.get_trust_network p = some L) : (p, L) ∈ d.trust_network := by
  unfold UserData.get_trust_network at h
  cases hf : d.trust_network.find? (fun kv => kv.1 = p) with
  | none => rw [hf] at h; cases h
  | some kv =>
    rw [hf] at h
    have hmem := List.mem_of_find?_eq_some hf
    have hkey : kv.1 = p := by simpa using List.find?_some hf
    obtain ⟨k, v⟩ := kv
    have hv : v = L := by simpa using h
    subst hv
    cases hkey
    exact hmem

theorem remove_key_of_forall_ne (l : List String) (p : String)
    (h : ∀ k ∈ l, k ≠ p) : UserData.remove_key l p = l := by
  induction l with
  | nil => rfl
  | cons k rest ih =>
    simp only [UserData.remove_key, if_neg (h k (List.mem_cons_self k rest))]
    rw [ih (fun x hx => h x (List.mem_cons_of_mem k hx))]

theorem unblock_user_noop {d : UserData} {p : String} (h : d.is_blocked p = false) :
    d.unblock_user p = d := by
  have h' : ∀ k ∈ d.blocked_users, k ≠ p := by
    intro k hk he
    have htrue : d.blocked_users.any (fun x => x = p) = true :=
      List.any_eq_true.mpr ⟨k, hk, by simp [he]⟩
    rw [UserData.is_blocked] at h
    rw [h] at htrue
    cases htrue
  unfold UserData.unblock_user
  rw [remove_key_of_forall_ne _ _ h']

/-! ## The claims -/

/-- **C3** — Reconciliation arithmetic: with `required = measuredSize * costPerByte`
and `available = currentBalance + newlyAttachedFunds`, `available < required`
fails with InsufficientFunds carrying the deficit `required - available`;
`available > required` yields balance `required` and a refund of
`available - required`; `available = required` yields balance `available` and
no transfer; `verify_deposit` stores the resulting balance for the caller and
schedules the refund; and in particular with `currentBalance = 0`,
`costPerByte = 1`, `measuredSize = 100`, attaching 50 fails with deficit 50
while attaching 150 sets the balance to 100 and refunds 50. -/
theorem claim3_reconciliation_arithmetic (cpb size current attached : Nat) :
    (current + attached < size * cpb →
      reconcile cpb size current attached
        = Except.error (ContractError.insufficientFunds (size * cpb - (current + attached)))) ∧
    (size * cpb < current + attached →
      reconcile cpb size current attached
        = Except.ok (size * cpb, current + attached - size * cpb)) ∧
    (current + attached = size * cpb →
      reconcile cpb size current attached = Except.ok (current + attached, 0)) ∧
    (∀ (st : St) (c : String) (d : UserData), alGet st.users c = some d →
      verify_deposit cpb attached c st
        = match reconcile cpb (measure_storage_usage c d)
            ((alGet st.user_deposits c).getD 0) attached with
          | Except.error e => Except.error e
          | Except.ok (nb, refundAmt) =>
              Except.ok ({ st with user_deposits := alInsert st.user_deposits c nb },
                refundAmt)) ∧
    reconcile 1 100 0 50 = Except.error (ContractError.insufficientFunds 50) ∧
    reconcile 1 100 0 150 = Except.ok (100, 50) := by
  refine ⟨fun h => reconcile_lt h, fun h => reconcile_gt h, fun h => reconcile_eq_required h,
    fun st c d hget => ?_, by decide, by decide⟩
  unfold verify_deposit
  rw [hget]

/-- Witness for C3: the insufficient branch at the claim's own concrete
numbers, obtained by applying the theorem. -/
theorem claim3_witness :
    reconcile 1 100 0 50 = Except.error (ContractError.insufficientFunds 50) := by
  have h := (claim3_reconciliation_arithmetic 1 100 0 50).1 (by decide)
  simpa using h

/-- **C7** — Storage cost formula: `measure` is the identity-key length plus
profile length plus `keyLen + 4` per trust entry plus `keyLen + 16` per
blocked entry plus 256; and it is stable under removing and re-adding the
same trust edge at the same level. -/
theorem claim7_storage_cost_formula (key : String) (d : UserData) (p : String) (L : ℚ) :
    (measure_storage_usage key d
       = key.length + d.public_profile.length
         + (d.trust_network.map (fun kv => kv.1.length + 4)).sum
         + (d.blocked_users.map (fun k => k.length + 16)).sum + 256) ∧
    ((d.trust_network.map Prod.fst).Nodup → d.get_trust_network p = some L →
      measure_storage_usage key ((d.remove_trust_network p).insert_trust_network p L)
        = measure_storage_usage key d) := by
  refine ⟨measure_storage_usage_eq key d, fun hnd hget => ?_⟩
  have hmem := get_trust_network_mem hget
  have hnotmem := not_mem_keys_remove_pair d.trust_network p hnd
  have happ : ((d.remove_trust_network p).insert_trust_network p L).trust_network
      = UserData.remove_pair_f32 d.trust_network p ++ [(p, L)] := by
    show UserData.set_pair_f32 (UserData.remove_pair_f32 d.trust_network p) p L = _
    exact set_pair_append _ _ _ hnotmem
  have hsum := sum_remove_pair_mem (fun kv => kv.1.length + 4) d.trust_network p L hmem hnd
  rw [measure_storage_usage_eq, measure_storage_usage_eq, happ]
  simp only [UserData.insert_trust_network, UserData.remove_trust_network, List.map_append,
    List.sum_append, List.map_cons, List.map_nil, List.sum_cons, List.sum_nil]
  simp only [UserData.insert_trust_network, UserData.remove_trust_network] at hsum ⊢
  omega

/-- Witness for C7: a record trusting `"b"` at level 1; removing and
re-adding that edge leaves the measured size unchanged. -/
theorem claim7_witness :
    measure_storage_usage "a"
        ((UserData.mk "a" 0 "hi" [("b", 1)] []).remove_trust_network
            "b"
          |>.insert_trust_network "b" 1)
      = measure_storage_usage "a" (UserData.mk "a" 0 "hi" [("b", 1)] []) :=
  (claim7_storage_cost_formula "a" (UserData.mk "a" 0 "hi" [("b", 1)] []) "b" 1).2
    (by decide) (by decide)

/-- **C10** — The reserved overhead in `extract_profit` is, by Rust operator
precedence, `(2 * 10) XOR 24 = 12` yoctoNEAR, so the extractable surplus is
the account balance minus the sum of all user deposits minus exactly 12. -/
theorem claim10_reserved_overhead (bal : Nat) (st : St) :
    contract_size_overhead = 12 ∧
    (get_total_users_deposit st + 12 ≤ bal →
      profit_to_extract bal (get_total_users_deposit st) + get_total_users_deposit st + 12
        = bal) := by
  refine ⟨by decide, fun h => ?_⟩
  have h12 : contract_size_overhead = 12 := by decide
  unfold profit_to_extract
  rw [h12]
  omega

/-- Witness for C10 at balance 1000 over the empty ledger. -/
theorem claim10_witness :
    profit_to_extract 1000 (get_total_users_deposit St.init)
        + get_total_users_deposit St.init + 12 = 1000 :=
  (claim10_reserved_overhead 1000 St.init).2 (by decide)

/-- **C5** (amended) — Blocked-caller trust rejection: if A's record contains
B in its block set, then B's `trust(A, L)` with `0 < L ≤ 1` fails with
PermissionDenied and the committed state is exactly the pre-call state (in
particular B's trust mapping is unchanged).  (As frozen, the claim said every
`L > 0`; an out-of-range level such as `L = 2` is rejected as InvalidArgument
before the block check — see the counterexample.) -/
theorem claim5_blocked_caller_rejected (cpb attached : Nat) (A B : String) (L : ℚ)
    (st : St) (dA : UserData) (hA : alGet st.users A = some dA)
    (hblk : dA.is_blocked B = true) (hL : 0 < L ∧ L ≤ 1) :
    trust cpb B attached A L st = Except.error ContractError.permissionDenied ∧
    commit st (trust cpb B attached A L st) = st := by
  have h01 : 0 ≤ L ∧ L ≤ 1 := ⟨le_of_lt hL.1, hL.2⟩
  have hcall : trust cpb B attached A L st = Except.error ContractError.permissionDenied := by
    unfold trust
    rw [if_pos h01]
    simp [hA, hblk]
  refine ⟨hcall, ?_⟩
  rw [hcall]
  rfl

/-- Witness for C5 (amended): `"a"` blocks `"b"`; `"b"` calling
`trust("a", 1)` is rejected with PermissionDenied and nothing commits. -/
theorem claim5_witness :
    trust 1 "b" 0 "a" 1 (St.mk [("a", UserData.mk "a" 0 "" [] ["b"])] [])
        = Except.error ContractError.permissionDenied ∧
      commit (St.mk [("a", UserData.mk "a" 0 "" [] ["b"])] [])
          (trust 1 "b" 0 "a" 1 (St.mk [("a", UserData.mk "a" 0 "" [] ["b"])] []))
        = St.mk [("a", UserData.mk "a" 0 "" [] ["b"])] [] :=
  claim5_blocked_caller_rejected 1 0 "a" "b" 1
    (St.mk [("a", UserData.mk "a" 0 "" [] ["b"])] [])
    (UserData.mk "a" 0 "" [] ["b"]) (by decide) (by decide) (by decide)

/-- Counterexample to C5 as frozen: `"a"` blocks `"b"` and `L = 2 > 0`, yet
the call fails with InvalidArgument (the range check precedes the block
check), not PermissionDenied. -/
theorem claim5_counterexample :
    alGet (St.mk [("a", UserData.mk "a" 0 "" [] ["b"])] []).users "a"
        = some (UserData.mk "a" 0 "" [] ["b"]) ∧
      (UserData.mk "a" 0 "" [] ["b"]).is_blocked "b" = true ∧
      (0 : ℚ) < 2 ∧
      trust 1 "b" 0 "a" 2 (St.mk [("a", UserData.mk "a" 0 "" [] ["b"])] [])
        = Except.error ContractError.invalidArgument ∧
      trust 1 "b" 0 "a" 2 (St.mk [("a", UserData.mk "a" 0 "" [] ["b"])] [])
        ≠ Except.error ContractError.permissionDenied := by
  decide

/-- **C9** (amended) — `unblock(p)` on a non-blocked peer never changes the
caller's record (the fetched-or-created record is re-stored verbatim): when
held plus attached funds cover the record's measured cost the call succeeds
with the record — and hence the block set — unchanged; otherwise it fails
with InsufficientFunds carrying the exact deficit and nothing commits.  (As
frozen, the claim said the call never fails, including for a caller with no
existing record; a record-less caller attaching nothing fails reconciliation
— see the counterexample.) -/
theorem claim9_unblock_nonblocked (cpb attached : Nat) (caller p : String) (st : St)
    (d0 : UserData) (hd0 : d0 = (alGet st.users caller).getD (UserData.new caller))
    (hnb : d0.is_blocked p = false) :
    d0.unblock_user p = d0 ∧
    (measure_storage_usage caller d0 * cpb ≤ (alGet st.user_deposits caller).getD 0 + attached →
      ∃ st' ref, unblock_user cpb caller attached p st = Except.ok (st', ref) ∧
        alGet st'.users caller = some d0) ∧
    ((alGet st.user_deposits caller).getD 0 + attached < measure_storage_usage caller d0 * cpb →
      unblock_user cpb caller attached p st
          = Except.error (ContractError.insufficientFunds
              (measure_storage_usage caller d0 * cpb
                - ((alGet st.user_deposits caller).getD 0 + attached))) ∧
        commit st (unblock_user cpb caller attached p st) = st) := by
  have hnoop : d0.unblock_user p = d0 := unblock_user_noop hnb
  have hget : alGet (with_user_data caller (fun d => d.unblock_user p) st).users caller
      = some d0 := by
    rw [with_user_data_get_self, ← hd0, hnoop]
  refine ⟨hnoop, fun hge => ?_, fun hlt => ?_⟩
  · obtain ⟨st', r, hok, husers⟩ := verify_deposit_sufficient hget hge
    refine ⟨st', r, hok, ?_⟩
    rw [husers]
    exact hget
  · have herr := verify_deposit_insufficient hget hlt
    refine ⟨herr, ?_⟩
    show commit st (verify_deposit cpb attached caller
      (with_user_data caller (fun d => d.unblock_user p) st)) = st
    rw [herr]
    rfl

/-- Witness for C9 (amended): a funded existing user unblocking a peer they
never blocked — the call succeeds and the record is unchanged. -/
theorem claim9_witness :
    (UserData.new "a").unblock_user "b" = UserData.new "a" ∧
    (∃ st' ref,
        unblock_user 1 "a" 0 "b" (St.mk [("a", UserData.new "a")] [("a", 257)])
          = Except.ok (st', ref) ∧
        alGet st'.users "a" = some (UserData.new "a")) := by
  have h := claim9_unblock_nonblocked 1 0 "a" "b"
    (St.mk [("a", UserData.new "a")] [("a", 257)]) (UserData.new "a") (by decide) (by decide)
  exact ⟨h.1, h.2.1 (by decide)⟩

/-- Counterexample to C9 as frozen: a caller with no record (so nothing is
blocked) calls `unblock` with nothing attached; far from never failing, the
call fails with InsufficientFunds for the freshly created record's cost. -/
theorem claim9_counterexample :
    alGet St.init.users "a" = none ∧
      (UserData.new "a").is_blocked "b" = false ∧
      unblock_user 1 "a" 0 "b" St.init
        = Except.error (ContractError.insufficientFunds 257) := by
  decide

/-- **C8** — Account deletion: a caller with a record and held balance `X`
gets both the record and the ledger entry removed and exactly `X` refunded;
afterwards (and in general without a record) `delete_user` fails with
NotFound and commits nothing. -/
theorem claim8_delete_account (caller : String) (st : St) (X : Nat)
    (hndu : alKeysND st.users) (hndd : alKeysND st.user_deposits)
    (hX : (alGet st.user_deposits caller).getD 0 = X) :
    (∀ d, alGet st.users caller = some d →
      delete_user caller st
          = Except.ok ({ users := alRemove st.users caller,
                         user_deposits := alRemove st.user_deposits caller }, X) ∧
        alGet (alRemove st.users caller) caller = none ∧
        alGet (alRemove st.user_deposits caller) caller = none ∧
        delete_user caller { users := alRemove st.users caller,
                             user_deposits := alRemove st.user_deposits caller }
          = Except.error ContractError.notFound) ∧
    (alGet st.users caller = none →
      delete_user caller st = Except.error ContractError.notFound ∧
      commit st (delete_user caller st) = st) := by
  constructor
  · intro d hd
    refine ⟨?_, alGet_alRemove_self _ _ hndu, alGet_alRemove_self _ _ hndd, ?_⟩
    · unfold delete_user
      rw [hd]
      dsimp only
      rw [hX]
    · unfold delete_user
      rw [show alGet (alRemove st.users caller) caller = none from
        alGet_alRemove_self _ _ hndu]
  · intro hnone
    have herr : delete_user caller st = Except.error ContractError.notFound := by
      unfold delete_user
      rw [hnone]
    refine ⟨herr, ?_⟩
    rw [herr]
    rfl

/-- Witness for C8: a funded single-user state; deletion refunds the whole
balance 257 and a second deletion fails with NotFound. -/
theorem claim8_witness :
    delete_user "a" (St.mk [("a", UserData.new "a")] [("a", 257)])
        = Except.ok (St.mk (alRemove [("a", UserData.new "a")] "a")
            (alRemove [("a", 257)] "a"), 257) ∧
      delete_user "a" (St.mk (alRemove [("a", UserData.new "a")] "a")
            (alRemove [("a", 257)] "a"))
        = Except.error ContractError.notFound := by
  have h := (claim8_delete_account "a" (St.mk [("a", UserData.new "a")] [("a", 257)]) 257
    (by unfold alKeysND; decide) (by unfold alKeysND; decide) (by decide)).1
    (UserData.new "a") (by decide)
  exact ⟨h.1, h.2.2.2⟩

/-- **C4** — Block cross-record side effect: when A's `block_user(B)` call
succeeds and B's record (for distinct users A and B) holds a trust edge
toward A, B's stored record afterwards is exactly its old record with that
edge removed (so the edge is gone), while B's deposit-ledger entry is not
touched: the side update does not re-trigger B's reconciliation. -/
theorem claim4_block_removes_reverse_trust (cpb attached : Nat) (A B : String)
    (st st' : St) (ref : Nat) (dB : UserData) (L : ℚ) (hAB : A ≠ B)
    (hB : alGet st.users B = some dB)
    (hnd : (dB.trust_network.map Prod.fst).Nodup)
    (hedge : dB.get_trust_network A = some L)
    (hok : block_user cpb A attached B st = Except.ok (st', ref)) :
    alGet st'.users B = some (dB.remove_trust_network A) ∧
    (dB.remove_trust_network A).get_trust_network A = none ∧
    alGet st'.user_deposits B = alGet st.user_deposits B := by
  have hBA : B ≠ A := Ne.symm hAB
  have hgB : alGet (with_user_data A (fun d => d.block_user B) st).users B = some dB := by
    rw [with_user_data_get_ne A B _ st hBA]
    exact hB
  unfold block_user at hok
  dsimp only at hok
  rw [hgB] at hok
  dsimp only at hok
  have huse := verify_deposit_ok_users hok
  obtain ⟨dcal, nb, _, hdepo, _⟩ := verify_deposit_ok_deposits hok
  refine ⟨?_, get_trust_network_remove_self dB A hnd, ?_⟩
  · rw [huse, with_user_data_get_self, hgB]
    rfl
  · rw [hdepo, alGet_alInsert_ne _ _ _ _ hBA]
    rfl

/-- Witness for C4: `"b"` trusts `"a"` at level 1, `"a"` blocks `"b"` with
just enough attached funds; afterwards `"b"`'s record lost the edge and
`"b"`'s deposit is untouched. -/
theorem claim4_witness :
    alGet (St.mk [("a", UserData.mk "a" 0 "" [] ["b"]), ("b", UserData.mk "b" 0 "" [] [])]
          [("b", 262), ("a", 274)]).users "b"
        = some ((UserData.mk "b" 0 "" [("a", 1)] []).remove_trust_network "a") ∧
      ((UserData.mk "b" 0 "" [("a", 1)] []).remove_trust_network "a").get_trust_network "a"
        = none ∧
      alGet (St.mk [("a", UserData.mk "a" 0 "" [] ["b"]), ("b", UserData.mk "b" 0 "" [] [])]
          [("b", 262), ("a", 274)]).user_deposits "b"
        = alGet (St.mk [("b", UserData.mk "b" 0 "" [("a", 1)] [])] [("b", 262)]).user_deposits
            "b" :=
  claim4_block_removes_reverse_trust 1 274 "a" "b"
    (St.mk [("b", UserData.mk "b" 0 "" [("a", 1)] [])] [("b", 262)])
    (St.mk [("a", UserData.mk "a" 0 "" [] ["b"]), ("b", UserData.mk "b" 0 "" [] [])]
      [("b", 262), ("a", 274)])
    0 (UserData.mk "b" 0 "" [("a", 1)] []) 1
    (by decide) (by decide) (by decide) (by decide) (by decide)

/-- **C6** — setTrust/getTrust round trip: with the peer not blocking the
caller, a successful `trust(p, L)` with `0 ≤ L ≤ 1` leaves the caller's
stored record answering `get_trust_network p = L` for `L ≠ 0` and absent for
`L = 0`; an out-of-range level (`L < 0` or `L > 1`) fails with
InvalidArgument. -/
theorem claim6_trust_get_roundtrip (cpb attached : Nat) (caller p : String) (L : ℚ)
    (st st' : St) (ref : Nat)
    (hnotblk : (match alGet st.users p with
                | some target_user => target_user.is_blocked caller
                | none => false) = false)
    (hnd : (((alGet st.users caller).getD
        (UserData.new caller)).trust_network.map Prod.fst).Nodup) :
    ((0 ≤ L ∧ L ≤ 1) → trust cpb caller attached p L st = Except.ok (st', ref) →
      ∃ dc, alGet st'.users caller = some dc ∧
        dc.get_trust_network p = (if L = 0 then none else some L)) ∧
    ((L < 0 ∨ 1 < L) →
      trust cpb caller attached p L st = Except.error ContractError.invalidArgument) := by
  constructor
  · intro h01 hok
    unfold trust at hok
    rw [if_pos h01, if_neg (by simp [hnotblk])] at hok
    have huse := verify_deposit_ok_users hok
    refine ⟨(if L = 0
        then ((alGet st.users caller).getD (UserData.new caller)).remove_trust_network p
        else ((alGet st.users caller).getD (UserData.new caller)).insert_trust_network p L),
      ?_, ?_⟩
    · rw [huse, with_user_data_get_self]
    · by_cases h0 : L = 0
      · rw [if_pos h0, if_pos h0]
        exact get_trust_network_remove_self _ _ hnd
      · rw [if_neg h0, if_neg h0]
        exact get_trust_network_insert_self _ _ _
  · intro hbad
    unfold trust
    rw [if_neg ?hc]
    case hc =>
      rcases hbad with h | h
      · exact fun hc => absurd hc.1 (not_le.mpr h)
      · exact fun hc => absurd hc.2 (not_le.mpr h)

/-- Witness for C6: from the empty state, `"a"` sets trust 1 for `"b"` with
exactly the required funds attached; the stored record answers level 1. -/
theorem claim6_witness :
    ∃ dc,
      alGet (St.mk [("a", UserData.mk "a" 0 "" [("b", 1)] [])] [("a", 262)]).users "a"
          = some dc ∧
        dc.get_trust_network "b" = some 1 := by
  have h := (claim6_trust_get_roundtrip 1 262 "a" "b" 1 St.init
      (St.mk [("a", UserData.mk "a" 0 "" [("b", 1)] [])] [("a", 262)]) 0
      (by decide) (by decide)).1 (by decide) (by decide)
  obtain ⟨dc, h1, h2⟩ := h
  rw [if_neg (by decide)] at h2
  exact ⟨dc, h1, h2⟩

/-- **C2** — Atomicity on reconciliation failure: for each mutating entry
point (`modify_public_profile`, `trust`, `untrust`, `block_user`,
`unblock_user`), when the held balance plus attached funds is below the
storage cost of the already-computed record edit, the call fails with
InsufficientFunds carrying the exact deficit, and the committed state is
exactly the pre-call state: neither the users map nor the deposits map
changes. -/
theorem claim2_insufficient_funds_atomic (cpb attached : Nat)
    (caller profile user_id other_id : String) (level : ℚ) (st : St)
    (d0 : UserData) (hd0 : d0 = (alGet st.users caller).getD (UserData.new caller))
    (avail : Nat) (havail : avail = (alGet st.user_deposits caller).getD 0 + attached) :
    (avail < measure_storage_usage caller { d0 with public_profile := profile } * cpb →
      modify_public_profile cpb caller attached profile st
          = Except.error (ContractError.insufficientFunds
              (measure_storage_usage caller { d0 with public_profile := profile } * cpb
                - avail)) ∧
        commit st (modify_public_profile cpb caller attached profile st) = st) ∧
    ((0 ≤ level ∧ level ≤ 1) →
      (match alGet st.users user_id with
       | some target_user => target_user.is_blocked caller
       | none => false) = false →
      ∀ dT, dT = (if level = 0 then d0.remove_trust_network user_id
                  else d0.insert_trust_network user_id level) →
      avail < measure_storage_usage caller dT * cpb →
        trust cpb caller attached user_id level st
            = Except.error (ContractError.insufficientFunds
                (measure_storage_usage caller dT * cpb - avail)) ∧
          commit st (trust cpb caller attached user_id level st) = st) ∧
    (avail < measure_storage_usage caller (d0.remove_trust_network user_id) * cpb →
      untrust cpb caller attached user_id st
          = Except.error (ContractError.insufficientFunds
              (measure_storage_usage caller (d0.remove_trust_network user_id) * cpb - avail)) ∧
        commit st (untrust cpb caller attached user_id st) = st) ∧
    (∀ dblk, dblk = (if other_id = caller
          then (d0.block_user other_id).remove_trust_network caller
          else d0.block_user other_id) →
      avail < measure_storage_usage caller dblk * cpb →
        block_user cpb caller attached other_id st
            = Except.error (ContractError.insufficientFunds
                (measure_storage_usage caller dblk * cpb - avail)) ∧
          commit st (block_user cpb caller attached other_id st) = st) ∧
    (avail < measure_storage_usage caller (d0.unblock_user other_id) * cpb →
      unblock_user cpb caller attached other_id st
          = Except.error (ContractError.insufficientFunds
              (measure_storage_usage caller (d0.unblock_user other_id) * cpb - avail)) ∧
        commit st (unblock_user cpb caller attached other_id st) = st) := by
  subst hd0
  subst havail
  refine ⟨fun hlt => ?_, fun h01 hblkf dT hdT hlt => ?_, fun hlt => ?_,
    fun dblk hdblk hlt => ?_, fun hlt => ?_⟩
  · have hcall : modify_public_profile cpb caller attached profile st
        = Except.error (ContractError.insufficientFunds
            (measure_storage_usage caller
                { (alGet st.users caller).getD (UserData.new caller) with
                    public_profile := profile } * cpb
              - ((alGet st.user_deposits caller).getD 0 + attached))) :=
      verify_deposit_insufficient
        (with_user_data_get_self caller (fun d => { d with public_profile := profile }) st) hlt
    exact ⟨hcall, by rw [hcall]; rfl⟩
  · subst hdT
    have hcall : trust cpb caller attached user_id level st
        = Except.error (ContractError.insufficientFunds
            (measure_storage_usage caller
                (if level = 0
                  then ((alGet st.users caller).getD
                      (UserData.new caller)).remove_trust_network user_id
                  else ((alGet st.users caller).getD
                      (UserData.new caller)).insert_trust_network user_id level) * cpb
              - ((alGet st.user_deposits caller).getD 0 + attached))) := by
      unfold trust
      rw [if_pos h01, if_neg (by simp [hblkf])]
      exact verify_deposit_insufficient
        (with_user_data_get_self caller (fun d =>
          if level = 0 then d.remove_trust_network user_id
          else d.insert_trust_network user_id level) st) hlt
    exact ⟨hcall, by rw [hcall]; rfl⟩
  · have hcall : untrust cpb caller attached user_id st
        = Except.error (ContractError.insufficientFunds
            (measure_storage_usage caller
                (((alGet st.users caller).getD
                    (UserData.new caller)).remove_trust_network user_id) * cpb
              - ((alGet st.user_deposits caller).getD 0 + attached))) :=
      verify_deposit_insufficient
        (with_user_data_get_self caller (fun d => d.remove_trust_network user_id) st) hlt
    exact ⟨hcall, by rw [hcall]; rfl⟩
  · subst hdblk
    by_cases hoc : other_id = caller
    · subst hoc
      rw [if_pos rfl] at hlt ⊢
      have hgetc : alGet (with_user_data other_id (fun d => d.block_user other_id) st).users
          other_id = some (((alGet st.users other_id).getD
            (UserData.new other_id)).block_user other_id) :=
        with_user_data_get_self other_id (fun d => d.block_user other_id) st
      have hgd : alGet (with_user_data other_id (fun d => d.remove_trust_network other_id)
            (with_user_data other_id (fun d => d.block_user other_id) st)).users other_id
          = some ((((alGet st.users other_id).getD
              (UserData.new other_id)).block_user other_id).remove_trust_network other_id) := by
        rw [with_user_data_get_self, hgetc]
        rfl
      have hcall : block_user cpb other_id attached other_id st
          = Except.error (ContractError.insufficientFunds
              (measure_storage_usage other_id
                  ((((alGet st.users other_id).getD
                      (UserData.new other_id)).block_user other_id).remove_trust_network
                    other_id) * cpb
                - ((alGet st.user_deposits other_id).getD 0 + attached))) := by
        unfold block_user
        dsimp only
        rw [hgetc]
        dsimp only
        exact verify_deposit_insufficient hgd hlt
      exact ⟨hcall, by rw [hcall]; rfl⟩
    · rw [if_neg hoc] at hlt ⊢
      cases halGet : alGet st.users other_id with
      | none =>
        have hnone : alGet (with_user_data caller (fun d => d.block_user other_id) st).users
            other_id = none := by
          rw [with_user_data_get_ne _ _ _ _ hoc]
          exact halGet
        have hcall : block_user cpb caller attached other_id st
            = Except.error (ContractError.insufficientFunds
                (measure_storage_usage caller
                    (((alGet st.users caller).getD
                        (UserData.new caller)).block_user other_id) * cpb
                  - ((alGet st.user_deposits caller).getD 0 + attached))) := by
          unfold block_user
          dsimp only
          rw [hnone]
          dsimp only
          exact verify_deposit_insufficient
            (with_user_data_get_self caller (fun d => d.block_user other_id) st) hlt
        exact ⟨hcall, by rw [hcall]; rfl⟩
      | some dother =>
        have hsome : alGet (with_user_data caller (fun d => d.block_user other_id) st).users
            other_id = some dother := by
          rw [with_user_data_get_ne _ _ _ _ hoc]
          exact halGet
        have hgd : alGet (with_user_data other_id (fun d => d.remove_trust_network caller)
              (with_user_data caller (fun d => d.block_user other_id) st)).users caller
            = some (((alGet st.users caller).getD
                (UserData.new caller)).block_user other_id) := by
          rw [with_user_data_get_ne _ _ _ _ (Ne.symm hoc), with_user_data_get_self]
        have hcall : block_user cpb caller attached other_id st
            = Except.error (ContractError.insufficientFunds
                (measure_storage_usage caller
                    (((alGet st.users caller).getD
                        (UserData.new caller)).block_user other_id) * cpb
                  - ((alGet st.user_deposits caller).getD 0 + attached))) := by
          unfold block_user
          dsimp only
          rw [hsome]
          dsimp only
          exact verify_deposit_insufficient hgd hlt
        exact ⟨hcall, by rw [hcall]; rfl⟩
  · have hcall : unblock_user cpb caller attached other_id st
        = Except.error (ContractError.insufficientFunds
            (measure_storage_usage caller
                (((alGet st.users caller).getD
                    (UserData.new caller)).unblock_user other_id) * cpb
              - ((alGet st.user_deposits caller).getD 0 + attached))) :=
      verify_deposit_insufficient
        (with_user_data_get_self caller (fun d => d.unblock_user other_id) st) hlt
    exact ⟨hcall, by rw [hcall]; rfl⟩

/-- Witness for C2: an unfunded caller editing their profile on the empty
state; the call reports the exact 257-byte deficit and commits nothing. -/
theorem claim2_witness :
    modify_public_profile 1 "a" 0 "" St.init
        = Except.error (ContractError.insufficientFunds 257) ∧
      commit St.init (modify_public_profile 1 "a" 0 "" St.init) = St.init := by
  have h := (claim2_insufficient_funds_atomic 1 0 "a" "" "x" "y" 1 St.init
      (UserData.new "a") (by decide) 0 (by decide)).1 (by decide)
  exact ⟨by rw [h.1]; decide, h.2⟩

/-- **C1** — Funding invariant: in every state reachable from deployment
through the public entry points (observed between calls), every user that has
a `UserData` record also has a deposit-ledger entry whose balance is at least
`measure_storage_usage(record) * costPerByte`; in particular the best-effort
side update of `block_user`, which shrinks the other user's record without
touching their deposit, preserves full funding. -/
theorem claim1_funding_invariant (cpb : Nat) (st : St) (h : Reachable cpb st) :
    Funded cpb st :=
  (reachable_stInv h).2.2

/-- Witness for C1 at a concrete reachable state: `"b"` sets trust toward
`"a"`, then `"a"` blocks `"b"` — the call whose side update shrinks `"b"`'s
record — and the resulting state is fully funded. -/
theorem claim1_witness :
    Funded 1 (commit (commit St.init (trust 1 "b" 262 "a" 1 St.init))
      (block_user 1 "a" 274 "b" (commit St.init (trust 1 "b" 262 "a" 1 St.init)))) :=
  claim1_funding_invariant 1 _
    (Reachable.block_call "a" 274 "b" (Reachable.trust_call "b" 262 "a" 1 Reachable.init))
